import Mathlib

/-!
Verification of the scan-orchestration core of `src/tools/nut-scanner/nut-scanner.c`.

The C source is shallowly embedded below: pure functions of the tool become Lean
functions, the global mutable state of `main` (pending start/end addresses, the
IP-range registry, the allow flags, the USB link-detail level) becomes explicit
state passing, and NULL pointers become `Option`/empty lists.  Probes, which are
external collaborators, are parameters.  Machine integers are modelled as `Nat`
or `Int` with the LP64 bounds written out explicitly where the source compares
against them.
-/

namespace NutScanner

/-! ## IP range registry (`ip_range_t`, `ip_ranges`, `ip_ranges_count`, `add_ip_range`) -/

/-- The registry of IP ranges: the linked list `ip_ranges` (kept in insertion
order, `ip_ranges_last` always pointing at the tail) together with the separate
counter `ip_ranges_count`. -/
structure Registry (α : Type) where
  ranges : List (α × α)
  count : Nat
  deriving Repr, DecidableEq

/-- The empty registry, as at program start. -/
def Registry.empty (α : Type) : Registry α := ⟨[], 0⟩

/-- Embedding of `add_ip_range` (nut-scanner.c lines 150-190).  A NULL argument
is `none`.  Both NULL: skip, return the current count.  Exactly one NULL: the
present address is copied into the missing slot.  The new cell is appended at
the tail of the list and the count incremented; the incremented count is
returned. -/
def add_ip_range {α : Type} (start_ip end_ip : Option α) (reg : Registry α) :
    Registry α × Nat :=
  match start_ip, end_ip with
  | none, none => (reg, reg.count)
  | some s, none => (⟨reg.ranges ++ [(s, s)], reg.count + 1⟩, reg.count + 1)
  | none, some e => (⟨reg.ranges ++ [(e, e)], reg.count + 1⟩, reg.count + 1)
  | some s, some e => (⟨reg.ranges ++ [(s, e)], reg.count + 1⟩, reg.count + 1)

/-! ## Device lists and per-range accumulation

A `nutscan_device_t *` is modelled as a `List δ` of discovered devices, the
NULL pointer being the empty list. -/

/-- Modelled from the spec: `nutscan_add_device_to_device` is not under `src/`
(it lives in the nut-scanner support library); spec section 4.6 and the
`mergeDeviceLists` interface describe it as a strict append in which the new
per-range result (the first argument at every call site of this file) is
appended after the existing accumulator (the second argument), never
interleaved, and merging with an empty list is the identity. -/
def nutscan_add_device_to_device {δ : Type} (dev_ret acc : List δ) : List δ :=
  acc ++ dev_ret

/-- Modelled from the spec: `nutscan_rewind_device` is not under `src/`; the
spec says the combined list's read cursor is reset to its head before further
use.  A Lean list value is always addressed from its head, so the rewind is the
identity on the list value. -/
def nutscan_rewind_device {δ : Type} (d : List δ) : List δ := d

/-- The per-range accumulation loop shared by `run_snmp`, `run_xml`,
`run_nut_old` and `run_ipmi` (e.g. nut-scanner.c lines 285-294): walk the
registry list; call the probe on each range; if the accumulator is still NULL
take the result as the accumulator, otherwise merge the new result into the
accumulator and rewind the combined list. -/
def scanLoop {ρ δ : Type} (probe : ρ → List δ) : List ρ → List δ → List δ
  | [], acc => acc
  | r :: rest, acc =>
      let dev_ret := probe r
      scanLoop probe rest
        (if acc.isEmpty then dev_ret
         else nutscan_rewind_device (nutscan_add_device_to_device dev_ret acc))

/-- Embedding of `run_snmp` (lines 275-298): `dev[TYPE_SNMP]` starts NULL, then
the per-range loop runs.  The SNMP probe `nutscan_scan_snmp` is opaque and
passed as a parameter over the range type. -/
def run_snmp {ρ δ : Type} (probe : ρ → List δ) (ip_ranges : List ρ) : List δ :=
  scanLoop probe ip_ranges []

/-- Embedding of `run_nut_old` (lines 333-356), same shape as `run_snmp` with
the legacy-NUT probe. -/
def run_nut_old {ρ δ : Type} (probe : ρ → List δ) (ip_ranges : List ρ) : List δ :=
  scanLoop probe ip_ranges []

/-- Embedding of `run_xml` (lines 300-331): with an empty registry the probe is
called once with NULL addresses (`probe none`, the broadcast probe); otherwise
the per-range loop runs. -/
def run_xml {ρ δ : Type} (probe : Option ρ → List δ) (ip_ranges : List ρ) : List δ :=
  match ip_ranges with
  | [] => probe none
  | r :: rest => scanLoop (fun q => probe (some q)) (r :: rest) []

/-- Embedding of `run_ipmi` (lines 374-405): with an empty registry the probe
is called once with NULL addresses (the local-device probe); otherwise the
per-range loop runs. -/
def run_ipmi {ρ δ : Type} (probe : Option ρ → List δ) (ip_ranges : List ρ) : List δ :=
  match ip_ranges with
  | [] => probe none
  | r :: rest => scanLoop (fun q => probe (some q)) (r :: rest) []

/-! ## Protocol kinds, capability and request flags, dispatch and report -/

/-- The protocol kinds of the `TYPE_*` enumeration indexing `dev[]` and
`thread[]`, in their declaration order. -/
inductive ScanType where
  | usb | snmp | xml | nut | nut_simulation | avahi | ipmi | eaton_serial
  deriving DecidableEq, Repr

/-- The `nutscan_avail_*` capability globals (whether each supporting library
was compiled in / detected).  Eaton serial has no capability flag. -/
structure Avail where
  usb : Bool
  snmp : Bool
  xml_http : Bool
  nut : Bool
  nut_simulation : Bool
  avahi : Bool
  ipmi : Bool
  deriving DecidableEq, Repr

/-- The `allow_*` request flags of `main`. -/
structure Allow where
  usb : Bool
  snmp : Bool
  xml : Bool
  oldnut : Bool
  nut_simulation : Bool
  avahi : Bool
  ipmi : Bool
  eaton_serial : Bool
  deriving DecidableEq, Repr

/-- All request flags cleared, as at the start of `main`. -/
def Allow.none : Allow := ⟨false, false, false, false, false, false, false, false⟩

/-- The opaque protocol probes (external collaborators), one per kind.  The
range-scoped ones take either a range or `none` for the NULL/default target. -/
structure Probes (ρ δ : Type) where
  usb : Int → List δ
  snmp : ρ → List δ
  xml : Option ρ → List δ
  oldnut : ρ → List δ
  nut_simulation : List δ
  avahi : List δ
  ipmi : Option ρ → List δ
  eaton_serial : List δ

/-- Outcome of the dispatch phase: the `dev[]` result array (NULL = empty
list) and the `nutscan_avail_*` flags as possibly cleared during dispatch. -/
structure RunOutcome (δ : Type) where
  dev : ScanType → List δ
  avail : Avail

/-- Which protocols actually get a scan started, per the dispatch conditions
of `main` (lines 1200-1358): `allow && avail`, with SNMP and legacy NUT
additionally requiring a non-empty registry (`ip_ranges_count`). -/
def dispatched {α : Type} (allow : Allow) (avail : Avail) (reg : Registry α) :
    ScanType → Bool
  | .usb => allow.usb && avail.usb
  | .snmp => allow.snmp && avail.snmp && !(reg.count == 0)
  | .xml => allow.xml && avail.xml_http
  | .nut => allow.oldnut && avail.nut && !(reg.count == 0)
  | .nut_simulation => allow.nut_simulation && avail.nut_simulation
  | .avahi => allow.avahi && avail.avahi
  | .ipmi => allow.ipmi && avail.ipmi
  | .eaton_serial => allow.eaton_serial

/-- Embedding of the dispatch phase of `main` (lines 1200-1358), in the
sequential no-thread semantics the spec declares observationally equivalent.
`dev[]` starts all NULL.  USB runs if allowed and available.  SNMP and legacy
NUT are skipped with their capability flag cleared when the registry count is
zero; XML/HTTP and IPMI run regardless of the registry (their run functions
fall back to broadcast / local device).  Simulation, avahi and serial are not
range-scoped.  `lvl` is `cli_link_detail_level` handed to the USB probe. -/
def dispatchAll {α δ : Type} (allow : Allow) (avail : Avail) (reg : Registry α)
    (lvl : Int) (pb : Probes (α × α) δ) : RunOutcome δ :=
  let usbDev := if allow.usb && avail.usb then pb.usb lvl else []
  let snmpRes :=
    if allow.snmp && avail.snmp then
      if reg.count == 0 then ([], false)
      else (run_snmp pb.snmp reg.ranges, avail.snmp)
    else ([], avail.snmp)
  let xmlDev :=
    if allow.xml && avail.xml_http then run_xml pb.xml reg.ranges else []
  let nutRes :=
    if allow.oldnut && avail.nut then
      if reg.count == 0 then ([], false)
      else (run_nut_old pb.oldnut reg.ranges, avail.nut)
    else ([], avail.nut)
  let simDev :=
    if allow.nut_simulation && avail.nut_simulation then pb.nut_simulation else []
  let avahiDev := if allow.avahi && avail.avahi then pb.avahi else []
  let ipmiDev :=
    if allow.ipmi && avail.ipmi then run_ipmi pb.ipmi reg.ranges else []
  let serialDev := if allow.eaton_serial then pb.eaton_serial else []
  { dev := fun t => match t with
      | .usb => usbDev
      | .snmp => snmpRes.1
      | .xml => xmlDev
      | .nut => nutRes.1
      | .nut_simulation => simDev
      | .avahi => avahiDev
      | .ipmi => ipmiDev
      | .eaton_serial => serialDev
    avail := { avail with snmp := snmpRes.2, nut := nutRes.2 } }

/-- Embedding of the report phase of `main` (lines 1395-1435): after all joins,
`display_func` is applied to each entry of `dev[]` unconditionally, in the
fixed source order USB, SNMP, XML/HTTP, NUT (old), NUT simulation, avahi,
IPMI, Eaton serial.  The returned association list records, in order, each
formatter invocation and its argument. -/
def reportList {δ : Type} (dev : ScanType → List δ) : List (ScanType × List δ) :=
  [(.usb, dev .usb), (.snmp, dev .snmp), (.xml, dev .xml), (.nut, dev .nut),
   (.nut_simulation, dev .nut_simulation), (.avahi, dev .avahi),
   (.ipmi, dev .ipmi), (.eaton_serial, dev .eaton_serial)]

/-- The fixed reporting order of the source. -/
def reportOrder : List ScanType :=
  [.usb, .snmp, .xml, .nut, .nut_simulation, .avahi, .ipmi, .eaton_serial]

/-! ## The CLI option loop of `main` (second getopt pass) -/

/-- The USB link-detail bump of `case 'U'` (lines 1050-1059): increment
`cli_link_detail_level` only while it is below 3. -/
def bumpU (l : Int) : Int := if l < 3 then l + 1 else l

/-- The USB link-detail bump of the `allow_all` block (lines 1181-1186):
increment `cli_link_detail_level` only while it is below 0. -/
def bumpC (l : Int) : Int := if l < 0 then l + 1 else l

/-- The mutable state of `main` touched by the option loop: the request
flags, `allow_all`, the pending `start_ip`/`end_ip` pointers, the range
registry globals and `cli_link_detail_level`. -/
structure OptState (α : Type) where
  allow : Allow
  allow_all : Bool
  start_ip : Option α
  end_ip : Option α
  reg : Registry α
  cli_link_detail_level : Int

/-- The state at entry of the option loop: no flags, no pending addresses,
empty registry, `cli_link_detail_level = -1` (line 138). -/
def initState (α : Type) : OptState α :=
  ⟨Allow.none, false, none, none, Registry.empty α, -1⟩

/-- Flush the pending `start_ip`/`end_ip` pair into the registry and clear
both slots (the recurring `add_ip_range(start_ip, end_ip); start_ip = NULL;
end_ip = NULL;` block of `main`). -/
def flushPending {α : Type} (st : OptState α) : OptState α :=
  { st with reg := (add_ip_range st.start_ip st.end_ip st.reg).1,
            start_ip := none, end_ip := none }

/-- Embedding of `case 's'` (lines 706-723): if a start is already pending,
flush whatever is pending; record the new start; if an end is (still) pending,
flush the completed pair at once. -/
def caseStart {α : Type} (a : α) (st : OptState α) : OptState α :=
  let st := if st.start_ip.isSome then flushPending st else st
  let st := { st with start_ip := some a }
  if st.end_ip.isSome then flushPending st else st

/-- Embedding of `case 'e'` (lines 724-741), symmetric to `case 's'`. -/
def caseEnd {α : Type} (b : α) (st : OptState α) : OptState α :=
  let st := if st.end_ip.isSome then flushPending st else st
  let st := { st with end_ip := some b }
  if st.start_ip.isSome then flushPending st else st

/-- The CLI options modelled here (the scan-type flags, the complete-scan
flag and the address-range flags); credentials, timeout and display options
do not affect the orchestration state verified below. -/
inductive CliOpt (α : Type) where
  | optS | optU | optM | optA | optI | optO | optN | optE | optC
  | optStart (a : α)
  | optEnd (b : α)

/-- One step of the second option loop (lines 694-1133).  A scan-type flag
whose capability is missing jumps to `display_help` and returns from `main`
(modelled as `Except.error`); otherwise the state is updated as in the
source. -/
def procOpt {α : Type} (avail : Avail) (st : OptState α) (o : CliOpt α) :
    Except Unit (OptState α) :=
  match o with
  | .optStart a => .ok (caseStart a st)
  | .optEnd b => .ok (caseEnd b st)
  | .optS =>
      if avail.snmp then .ok { st with allow := { st.allow with snmp := true } }
      else .error ()
  | .optU =>
      if avail.usb then
        .ok { st with allow := { st.allow with usb := true },
                      cli_link_detail_level := bumpU st.cli_link_detail_level }
      else .error ()
  | .optM =>
      if avail.xml_http then .ok { st with allow := { st.allow with xml := true } }
      else .error ()
  | .optA =>
      if avail.avahi then .ok { st with allow := { st.allow with avahi := true } }
      else .error ()
  | .optI =>
      if avail.ipmi then .ok { st with allow := { st.allow with ipmi := true } }
      else .error ()
  | .optO => .ok { st with allow := { st.allow with oldnut := true } }
  | .optN => .ok { st with allow := { st.allow with nut_simulation := true } }
  | .optE => .ok { st with allow := { st.allow with eaton_serial := true } }
  | .optC => .ok { st with allow_all := true }

/-- Embedding of the post-loop fixups of `main` (lines 1168-1195): flush a
leftover pending endpoint as a range; if no scan type at all was requested,
set `allow_all`; under `allow_all` enable every protocol except Eaton serial
and bump the USB link-detail level from its unset value. -/
def finishOpts {α : Type} (st : OptState α) : OptState α :=
  let st :=
    if st.start_ip.isSome || st.end_ip.isSome then flushPending st else st
  let allow_all :=
    if !st.allow.usb && !st.allow.snmp && !st.allow.xml && !st.allow.oldnut
        && !st.allow.nut_simulation && !st.allow.avahi && !st.allow.ipmi
        && !st.allow.eaton_serial
    then true else st.allow_all
  if allow_all then
    let newAllow : Allow :=
      { st.allow with usb := true, snmp := true, xml := true, oldnut := true,
                      nut_simulation := true, avahi := true, ipmi := true }
    { st with allow_all := allow_all, allow := newAllow,
              cli_link_detail_level := bumpC st.cli_link_detail_level }
  else { st with allow_all := allow_all }

/-- The whole second option pass followed by the post-loop fixups. -/
def processOpts {α : Type} (avail : Avail) (opts : List (CliOpt α)) :
    Except Unit (OptState α) :=
  (opts.foldlM (procOpt avail) (initState α)).map finishOpts

/-! ## Thread-ceiling handling (`case 'T'` and the `sem_init` clamp) -/

/-- `RESERVE_FD_COUNT` (line 80): descriptors reserved for known overhead. -/
def RESERVE_FD_COUNT : Nat := 3

/-- `SIZE_MAX` in the LP64 model used throughout the embedding. -/
def SIZE_MAX_64 : Nat := 2 ^ 64 - 1

/-- `UINT_MAX` in the LP64 model. -/
def UINT_MAX_32 : Nat := 2 ^ 32 - 1

/-- Embedding of `case 'T'` (lines 994-1039).  `parsed` is the `strtol`
outcome together with the `endptr` full-consumption check: `none` for a
non-numeric argument.  `nofile_rlim_cur` is the file-descriptor soft limit as
left by the startup `getrlimit` block (0 when `getrlimit` failed).  The
function returns the new `max_threads`.  A value that is not strictly positive
or not below `SIZE_MAX` leaves the previous `max_threads` (with a warning).
When the soft limit is meaningful and the value exceeds (soft limit minus
reservation), `max_threads` is set to the soft limit and the reservation is
subtracted only when the result would stay above `RESERVE_FD_COUNT + 1`. -/
def apply_T (nofile_rlim_cur : Nat) (parsed : Option Int) (max_threads : Nat) : Nat :=
  match parsed with
  | none => max_threads
  | some val =>
    if 0 < val ∧ val < (SIZE_MAX_64 : Int) then
      if 0 < nofile_rlim_cur ∧ RESERVE_FD_COUNT < nofile_rlim_cur
          ∧ nofile_rlim_cur < SIZE_MAX_64
          ∧ nofile_rlim_cur - RESERVE_FD_COUNT < val.toNat then
        if RESERVE_FD_COUNT + 1 < nofile_rlim_cur then
          nofile_rlim_cur - RESERVE_FD_COUNT
        else nofile_rlim_cur
      else val.toNat
    else max_threads

/-- Embedding of the pre-`sem_init` clamp (lines 1152-1163): on platforms
where `SIZE_MAX > UINT_MAX`, a `max_threads` strictly above `UINT_MAX` is
reduced to `UINT_MAX - 1`. -/
def sem_init_clamp (max_threads : Nat) : Nat :=
  if SIZE_MAX_64 > UINT_MAX_32 ∧ max_threads > UINT_MAX_32 then UINT_MAX_32 - 1
  else max_threads

/-! ## Spec-side model of the start/end accumulation machine

For the refinement claim about the `-s`/`-e` state machine, the following
definitions follow the spec's words (sections 4.2 and 8), not the source: the
pairs implied by a sequence of start/end events, tracked with a single pending
endpoint. -/

/-- A start (`-s`) or end (`-e`) address event. -/
inductive SE (α : Type) where
  | start (a : α)
  | stop (b : α)

/-- The (start, end) pairs a start/end event sequence implies, per the spec:
a new start over a pending start flushes the pending one as a singleton; a
start over a pending end (and symmetrically) completes a pair; a leftover
pending endpoint is flushed as a singleton. -/
def specImpliedPairs {α : Type} : List (SE α) → Option (α ⊕ α) → List (α × α)
  | [], none => []
  | [], some (.inl s) => [(s, s)]
  | [], some (.inr e) => [(e, e)]
  | .start a :: evs, none => specImpliedPairs evs (some (.inl a))
  | .start a :: evs, some (.inl s) => (s, s) :: specImpliedPairs evs (some (.inl a))
  | .start a :: evs, some (.inr e) => (a, e) :: specImpliedPairs evs none
  | .stop b :: evs, none => specImpliedPairs evs (some (.inr b))
  | .stop b :: evs, some (.inl s) => (s, b) :: specImpliedPairs evs none
  | .stop b :: evs, some (.inr e) => (e, e) :: specImpliedPairs evs (some (.inr b))

/-- Run the source-side `case 's'`/`case 'e'` handlers over an event list. -/
def seFold {α : Type} (evs : List (SE α)) (st : OptState α) : OptState α :=
  evs.foldl
    (fun st e => match e with
      | .start a => caseStart a st
      | .stop b => caseEnd b st)
    st

/-- A full option pass consisting only of start/end address flags: the
source-side handlers from the initial state, then the post-loop flush. -/
def seRun {α : Type} (evs : List (SE α)) : OptState α :=
  finishOpts (seFold evs (initState α))

/-- The CLI option carrying a start/end address event. -/
def seOpt {α : Type} : SE α → CliOpt α
  | .start a => .optStart a
  | .stop b => .optEnd b

/-- The pending endpoint held by the option-loop state, for comparison with
the spec-side machine (start wins when both are pending, which no reachable
state exhibits). -/
def pend {α : Type} (st : OptState α) : Option (α ⊕ α) :=
  match st.start_ip, st.end_ip with
  | some s, _ => some (.inl s)
  | none, some e => some (.inr e)
  | none, none => none

/-- A build with every capability detected. -/
def availAll : Avail := ⟨true, true, true, true, true, true, true⟩

/-- A build with every capability detected except SNMP. -/
def availNoSnmp : Avail := ⟨true, false, true, true, true, true, true⟩

/-! # Theorems -/

/-! ## Helper lemmas -/

/-- The accumulation loop computes the accumulator followed by the
concatenation, in registry order, of the per-range probe results. -/
theorem scanLoop_eq {ρ δ : Type} (probe : ρ → List δ) (rs : List ρ) (acc : List δ) :
    scanLoop probe rs acc = acc ++ (rs.map probe).flatten := by
  induction rs generalizing acc with
  | nil => simp [scanLoop]
  | cons r rest ih =>
      by_cases h : acc = []
      · subst h
        simp [scanLoop, nutscan_add_device_to_device, nutscan_rewind_device, ih]
      · have hne : acc.isEmpty = false := by
          cases acc with
          | nil => exact absurd rfl h
          | cons a l => rfl
        simp [scanLoop, hne, nutscan_add_device_to_device, nutscan_rewind_device, ih]

/-! ## Claims about the range registry -/

/-- Claim C8: for every address X, `add_ip_range` with exactly one endpoint
present appends exactly one range whose start and end both equal X, keeps the
earlier ranges in front unchanged, and returns the incremented count. -/
theorem add_ip_range_single_endpoint {α : Type} (X : α) (reg : Registry α) :
    (add_ip_range (some X) none reg).1.ranges = reg.ranges ++ [(X, X)]
    ∧ (add_ip_range none (some X) reg).1.ranges = reg.ranges ++ [(X, X)]
    ∧ (add_ip_range (some X) none reg).1.count = reg.count + 1
    ∧ (add_ip_range none (some X) reg).1.count = reg.count + 1
    ∧ (add_ip_range (some X) none reg).2 = reg.count + 1
    ∧ (add_ip_range none (some X) reg).2 = reg.count + 1 := by
  simp [add_ip_range]

/-- Claim C9: `add_ip_range` with both endpoints absent is a no-op: registry
and count unchanged, the current count returned. -/
theorem add_ip_range_none_noop {α : Type} (reg : Registry α) :
    add_ip_range (none : Option α) none reg = (reg, reg.count) := rfl

/-! ## Claims about per-range result aggregation -/

/-- Claim C1: every range-scoped run function over a non-empty registry calls
the probe once per range in registry insertion order and returns the
concatenation of the per-range results in that order (earlier ranges first,
never interleaved or reordered); if every per-range call returns nothing, the
result is the empty list. -/
theorem range_scoped_accumulation {ρ δ : Type} (probe : ρ → List δ)
    (probeO : Option ρ → List δ) (rs : List ρ) (h : rs ≠ []) :
    run_snmp probe rs = (rs.map probe).flatten
    ∧ run_nut_old probe rs = (rs.map probe).flatten
    ∧ run_xml probeO rs = (rs.map fun r => probeO (some r)).flatten
    ∧ run_ipmi probeO rs = (rs.map fun r => probeO (some r)).flatten
    ∧ ((∀ r ∈ rs, probe r = []) → run_snmp probe rs = []) := by
  cases rs with
  | nil => exact absurd rfl h
  | cons r rest =>
      refine ⟨?_, ?_, ?_, ?_, ?_⟩
      · simp [run_snmp, scanLoop_eq]
      · simp [run_nut_old, scanLoop_eq]
      · simp [run_xml, scanLoop_eq]
      · simp [run_ipmi, scanLoop_eq]
      · intro hall
        simp only [run_snmp, scanLoop_eq, List.nil_append]
        exact List.flatten_eq_nil_iff.mpr (by
          intro l hl
          rcases List.mem_map.mp hl with ⟨q, hq, rfl⟩
          exact hall q hq)

/-- Witness for C1 at a concrete registry and probes. -/
theorem range_scoped_accumulation_witness :
    run_snmp (fun r : Nat => [r]) [1, 2] = [1, 2]
    ∧ run_xml (fun o : Option Nat => o.elim [] fun r => [r, r + 10]) [1, 2]
        = [1, 11, 2, 12] := by
  have h := range_scoped_accumulation (fun r : Nat => [r])
    (fun o : Option Nat => o.elim [] fun r => [r, r + 10]) [1, 2] (by decide)
  exact ⟨by simpa using h.1, by simpa using h.2.2.1⟩

/-! ## Claims about the USB link-detail level -/

theorem caseStart_level {α : Type} (a : α) (st : OptState α) :
    (caseStart a st).cli_link_detail_level = st.cli_link_detail_level := by
  cases hs : st.start_ip <;> cases he : st.end_ip <;>
    simp [caseStart, flushPending, hs, he]

theorem caseEnd_level {α : Type} (b : α) (st : OptState α) :
    (caseEnd b st).cli_link_detail_level = st.cli_link_detail_level := by
  cases hs : st.start_ip <;> cases he : st.end_ip <;>
    simp [caseEnd, flushPending, hs, he]

/-- Level facts for a step that leaves the level unchanged. -/
theorem level_step_triv {α : Type} (st st' : OptState α)
    (h : st'.cli_link_detail_level = st.cli_link_detail_level) :
    st.cli_link_detail_level ≤ st'.cli_link_detail_level
    ∧ st'.cli_link_detail_level ≤ st.cli_link_detail_level + 1
    ∧ (st.cli_link_detail_level ≤ 3 → st'.cli_link_detail_level ≤ 3) := by
  rw [h]
  exact ⟨le_refl _, by omega, fun h3 => h3⟩

/-- Level facts for a step that applies the `-U` bump. -/
theorem level_step_bump {α : Type} (st st' : OptState α)
    (h : st'.cli_link_detail_level = bumpU st.cli_link_detail_level) :
    st.cli_link_detail_level ≤ st'.cli_link_detail_level
    ∧ st'.cli_link_detail_level ≤ st.cli_link_detail_level + 1
    ∧ (st.cli_link_detail_level ≤ 3 → st'.cli_link_detail_level ≤ 3) := by
  rw [h]
  unfold bumpU
  split <;> exact ⟨by omega, by omega, by omega⟩

/-- Each option-loop step never decreases `cli_link_detail_level`, raises it
by at most one, and keeps it at or below 3. -/
theorem procOpt_level {α : Type} (avail : Avail) (st : OptState α) (o : CliOpt α)
    (st' : OptState α) (h : procOpt avail st o = .ok st') :
    st.cli_link_detail_level ≤ st'.cli_link_detail_level
    ∧ st'.cli_link_detail_level ≤ st.cli_link_detail_level + 1
    ∧ (st.cli_link_detail_level ≤ 3 → st'.cli_link_detail_level ≤ 3) := by
  cases o with
  | optStart a =>
      simp only [procOpt, Except.ok.injEq] at h
      subst h
      exact level_step_triv st _ (caseStart_level a st)
  | optEnd b =>
      simp only [procOpt, Except.ok.injEq] at h
      subst h
      exact level_step_triv st _ (caseEnd_level b st)
  | optU =>
      simp only [procOpt] at h
      split at h
      · simp only [Except.ok.injEq] at h
        subst h
        exact level_step_bump st _ rfl
      · exact absurd h (by simp)
  | optS =>
      simp only [procOpt] at h
      split at h
      · simp only [Except.ok.injEq] at h
        subst h
        exact level_step_triv st _ rfl
      · exact absurd h (by simp)
  | optM =>
      simp only [procOpt] at h
      split at h
      · simp only [Except.ok.injEq] at h
        subst h
        exact level_step_triv st _ rfl
      · exact absurd h (by simp)
  | optA =>
      simp only [procOpt] at h
      split at h
      · simp only [Except.ok.injEq] at h
        subst h
        exact level_step_triv st _ rfl
      · exact absurd h (by simp)
  | optI =>
      simp only [procOpt] at h
      split at h
      · simp only [Except.ok.injEq] at h
        subst h
        exact level_step_triv st _ rfl
      · exact absurd h (by simp)
  | optO =>
      simp only [procOpt, Except.ok.injEq] at h
      subst h
      exact level_step_triv st _ rfl
  | optN =>
      simp only [procOpt, Except.ok.injEq] at h
      subst h
      exact level_step_triv st _ rfl
  | optE =>
      simp only [procOpt, Except.ok.injEq] at h
      subst h
      exact level_step_triv st _ rfl
  | optC =>
      simp only [procOpt, Except.ok.injEq] at h
      subst h
      exact level_step_triv st _ rfl

/-- The post-loop fixups either leave the level unchanged or apply the
`allow_all` bump to it. -/
theorem finishOpts_level_cases {α : Type} (st : OptState α) :
    (finishOpts st).cli_link_detail_level = st.cli_link_detail_level
    ∨ (finishOpts st).cli_link_detail_level = bumpC st.cli_link_detail_level := by
  simp only [finishOpts, flushPending]
  split <;> split <;>
    first
      | (right; rfl)
      | (left; rfl)
      | (split <;> first | (right; rfl) | (left; rfl))

/-- The post-loop fixups never decrease the level, raise it by at most one,
and keep it at or below 3. -/
theorem finishOpts_level {α : Type} (st : OptState α) :
    st.cli_link_detail_level ≤ (finishOpts st).cli_link_detail_level
    ∧ (finishOpts st).cli_link_detail_level ≤ st.cli_link_detail_level + 1
    ∧ (st.cli_link_detail_level ≤ 3 → (finishOpts st).cli_link_detail_level ≤ 3) := by
  rcases finishOpts_level_cases st with h | h
  · rw [h]
    exact ⟨le_refl _, by omega, fun h3 => h3⟩
  · rw [h]
    unfold bumpC
    split <;> exact ⟨by omega, by omega, by omega⟩

/-- The level bounds are invariant across the whole option loop. -/
theorem foldlM_level {α : Type} (avail : Avail) (opts : List (CliOpt α)) :
    ∀ st0 st : OptState α, opts.foldlM (procOpt avail) st0 = .ok st →
    st0.cli_link_detail_level ≤ st.cli_link_detail_level
    ∧ (st0.cli_link_detail_level ≤ 3 → st.cli_link_detail_level ≤ 3) := by
  induction opts with
  | nil =>
      intro st0 st h
      have h' : st0 = st := Except.ok.inj h
      subst h'
      exact ⟨le_refl _, fun h3 => h3⟩
  | cons o l ih =>
      intro st0 st h
      rw [List.foldlM_cons] at h
      cases h1 : procOpt avail st0 o with
      | error e => rw [h1] at h; exact Except.noConfusion h
      | ok s1 =>
          rw [h1] at h
          simp only [bind, Except.bind] at h
          have p := procOpt_level avail st0 o s1 h1
          have q := ih s1 st h
          exact ⟨le_trans p.1 q.1, fun h3 => q.2 (p.2.2 h3)⟩

/-- Claim C6: across any number of repeated USB-scan requests in one
invocation, the USB link-detail level is monotonically non-decreasing, each
occurrence of `-U` (and the implicit complete-scan enable) raising it by at
most one and never lowering it; it never exceeds 3 and saturates there. -/
theorem usb_level_monotone_saturating :
    (∀ (avail : Avail) (st st' : OptState Nat) (o : CliOpt Nat),
        procOpt avail st o = .ok st' →
        st.cli_link_detail_level ≤ st'.cli_link_detail_level
        ∧ st'.cli_link_detail_level ≤ st.cli_link_detail_level + 1
        ∧ (st.cli_link_detail_level ≤ 3 → st'.cli_link_detail_level ≤ 3))
    ∧ (∀ st : OptState Nat,
        st.cli_link_detail_level ≤ (finishOpts st).cli_link_detail_level
        ∧ (finishOpts st).cli_link_detail_level ≤ st.cli_link_detail_level + 1
        ∧ (st.cli_link_detail_level ≤ 3 → (finishOpts st).cli_link_detail_level ≤ 3))
    ∧ (∀ (avail : Avail) (opts : List (CliOpt Nat)) (st : OptState Nat),
        processOpts avail opts = .ok st →
        -1 ≤ st.cli_link_detail_level ∧ st.cli_link_detail_level ≤ 3)
    ∧ bumpU 3 = 3 ∧ bumpC 3 = 3 := by
  refine ⟨fun avail st st' o h => procOpt_level avail st o st' h,
          fun st => finishOpts_level st, ?_, rfl, rfl⟩
  intro avail opts st h
  unfold processOpts at h
  cases h1 : opts.foldlM (procOpt avail) (initState Nat) with
  | error e => rw [h1] at h; exact Except.noConfusion h
  | ok s0 =>
      rw [h1] at h
      simp only [Except.map, Except.ok.injEq] at h
      subst h
      have q := foldlM_level avail opts (initState Nat) s0 h1
      have r := finishOpts_level s0
      have hinit : (initState Nat).cli_link_detail_level = -1 := rfl
      constructor
      · have := q.1
        rw [hinit] at this
        omega
      · exact r.2.2 (q.2 (by rw [hinit]; omega))

/-- Witness for C6: a concrete run of the option loop with one `-U`. -/
theorem usb_level_monotone_saturating_witness :
    (-1 : Int) ≤ 0 ∧ (0 : Int) ≤ 3 := by
  have h := usb_level_monotone_saturating
  exact h.2.2.1 availAll [CliOpt.optU]
    ⟨⟨true, false, false, false, false, false, false, false⟩, false, none, none,
     ⟨[], 0⟩, 0⟩ rfl

/-! ## Claims about dispatch and report -/

/-- Claim C7: the formatter is invoked exactly once per protocol kind — all
eight kinds, dispatched or not — in the fixed order USB, SNMP, XML/HTTP,
legacy NUT, simulation, avahi, IPMI, serial, each invocation receiving that
kind's result slot, and a never-dispatched protocol is formatted as an empty
result.  This holds for every configuration and probe outcome. -/
theorem report_once_per_kind_fixed_order {α δ : Type} (allow : Allow) (avail : Avail)
    (reg : Registry α) (lvl : Int) (pb : Probes (α × α) δ) :
    ((reportList (dispatchAll allow avail reg lvl pb).dev).map Prod.fst = reportOrder)
    ∧ (∀ t : ScanType, reportOrder.count t = 1)
    ∧ (∀ (t : ScanType) (ds : List δ),
        (t, ds) ∈ reportList (dispatchAll allow avail reg lvl pb).dev →
        ds = (dispatchAll allow avail reg lvl pb).dev t)
    ∧ (∀ t : ScanType, dispatched allow avail reg t = false →
        (dispatchAll allow avail reg lvl pb).dev t = []) := by
  refine ⟨rfl, fun t => by cases t <;> rfl, ?_, ?_⟩
  · intro t ds h
    simp only [reportList, List.mem_cons, List.not_mem_nil, or_false,
      Prod.mk.injEq] at h
    rcases h with h | h | h | h | h | h | h | h <;>
      (obtain ⟨rfl, rfl⟩ := h; rfl)
  · intro t h
    cases t with
    | usb =>
        simp only [dispatched] at h
        simp [dispatchAll, h]
    | snmp =>
        simp only [dispatched] at h
        cases hA : (allow.snmp && avail.snmp) with
        | false => simp [dispatchAll, hA]
        | true =>
            rw [hA] at h
            simp only [Bool.true_and, Bool.not_eq_false'] at h
            simp [dispatchAll, hA, h]
    | xml =>
        simp only [dispatched] at h
        simp [dispatchAll, h]
    | nut =>
        simp only [dispatched] at h
        cases hA : (allow.oldnut && avail.nut) with
        | false => simp [dispatchAll, hA]
        | true =>
            rw [hA] at h
            simp only [Bool.true_and, Bool.not_eq_false'] at h
            simp [dispatchAll, hA, h]
    | nut_simulation =>
        simp only [dispatched] at h
        simp [dispatchAll, h]
    | avahi =>
        simp only [dispatched] at h
        simp [dispatchAll, h]
    | ipmi =>
        simp only [dispatched] at h
        simp [dispatchAll, h]
    | eaton_serial =>
        simp only [dispatched] at h
        simp [dispatchAll, h]

/-- Witness for C7 at a concrete configuration (everything allowed and
available, one range, trivial probes). -/
theorem report_once_per_kind_fixed_order_witness :
    (reportList (dispatchAll ⟨true, true, true, true, true, true, true, false⟩
        availAll (⟨[((1 : Nat), (2 : Nat))], 1⟩ : Registry Nat) 0
        ⟨fun _ => [0], fun _ => [1], fun _ => [2], fun _ => [3], [4], [5],
         fun _ => [6], [7]⟩).dev).map Prod.fst = reportOrder
    ∧ (dispatchAll ⟨true, true, true, true, true, true, true, false⟩
        availAll (⟨[((1 : Nat), (2 : Nat))], 1⟩ : Registry Nat) 0
        ⟨fun _ => [0], fun _ => [1], fun _ => [2], fun _ => [3], [4], [5],
         fun _ => [6], [7]⟩).dev .eaton_serial = [] := by
  have h := report_once_per_kind_fixed_order
    (⟨true, true, true, true, true, true, true, false⟩ : Allow) availAll
    (⟨[((1 : Nat), (2 : Nat))], 1⟩ : Registry Nat) 0
    (⟨fun _ => [0], fun _ => [1], fun _ => [2], fun _ => [3], [4], [5],
      fun _ => [6], [7]⟩ : Probes (Nat × Nat) Nat)
  exact ⟨h.1, h.2.2.2 .eaton_serial rfl⟩

/-- Claim C3: with an empty range registry at dispatch time, XML/HTTP and
IPMI (when allowed and available) still run exactly once with no range —
`probe none`, the broadcast / local-device call — while SNMP and legacy NUT
are not dispatched and their capability flag is cleared; the rest of the run
proceeds (USB and serial still produce their usual results, and all eight
report slots exist). -/
theorem empty_registry_dispatch {α δ : Type} (allow : Allow) (avail : Avail)
    (lvl : Int) (pb : Probes (α × α) δ) :
    (allow.xml = true → avail.xml_http = true →
      (dispatchAll allow avail (Registry.empty α) lvl pb).dev .xml = pb.xml none)
    ∧ (allow.ipmi = true → avail.ipmi = true →
      (dispatchAll allow avail (Registry.empty α) lvl pb).dev .ipmi = pb.ipmi none)
    ∧ (allow.snmp = true → avail.snmp = true →
      (dispatchAll allow avail (Registry.empty α) lvl pb).dev .snmp = []
      ∧ (dispatchAll allow avail (Registry.empty α) lvl pb).avail.snmp = false
      ∧ dispatched allow avail (Registry.empty α) .snmp = false)
    ∧ (allow.oldnut = true → avail.nut = true →
      (dispatchAll allow avail (Registry.empty α) lvl pb).dev .nut = []
      ∧ (dispatchAll allow avail (Registry.empty α) lvl pb).avail.nut = false
      ∧ dispatched allow avail (Registry.empty α) .nut = false)
    ∧ (dispatchAll allow avail (Registry.empty α) lvl pb).dev .usb
        = (if allow.usb && avail.usb then pb.usb lvl else [])
    ∧ (dispatchAll allow avail (Registry.empty α) lvl pb).dev .eaton_serial
        = (if allow.eaton_serial then pb.eaton_serial else [])
    ∧ (reportList (dispatchAll allow avail (Registry.empty α) lvl pb).dev).length = 8 := by
  refine ⟨?_, ?_, ?_, ?_, rfl, rfl, rfl⟩
  · intro h1 h2
    simp [dispatchAll, Registry.empty, run_xml, h1, h2]
  · intro h1 h2
    simp [dispatchAll, Registry.empty, run_ipmi, h1, h2]
  · intro h1 h2
    refine ⟨?_, ?_, ?_⟩ <;> simp [dispatchAll, dispatched, Registry.empty, h1, h2]
  · intro h1 h2
    refine ⟨?_, ?_, ?_⟩ <;> simp [dispatchAll, dispatched, Registry.empty, h1, h2]

/-- Witness for C3: a complete scan over an empty registry. -/
theorem empty_registry_dispatch_witness :
    (dispatchAll ⟨true, true, true, true, true, true, true, false⟩ availAll
        (Registry.empty Nat) 0
        ⟨fun _ => [0], fun _ => [1], fun o => if o.isNone then [42] else [2],
         fun _ => [3], [4], [5], fun o => if o.isNone then [43] else [6],
         [7]⟩).dev .xml = [42]
    ∧ (dispatchAll ⟨true, true, true, true, true, true, true, false⟩ availAll
        (Registry.empty Nat) 0
        ⟨fun _ => [0], fun _ => [1], fun o => if o.isNone then [42] else [2],
         fun _ => [3], [4], [5], fun o => if o.isNone then [43] else [6],
         [7]⟩).dev .snmp = []
    ∧ (dispatchAll ⟨true, true, true, true, true, true, true, false⟩ availAll
        (Registry.empty Nat) 0
        ⟨fun _ => [0], fun _ => [1], fun o => if o.isNone then [42] else [2],
         fun _ => [3], [4], [5], fun o => if o.isNone then [43] else [6],
         [7]⟩).avail.snmp = false := by
  have h := empty_registry_dispatch (α := Nat) (δ := Nat)
    ⟨true, true, true, true, true, true, true, false⟩ availAll 0
    ⟨fun _ => [0], fun _ => [1], fun o => if o.isNone then [42] else [2],
     fun _ => [3], [4], [5], fun o => if o.isNone then [43] else [6], [7]⟩
  exact ⟨h.1 rfl rfl, (h.2.2.1 rfl rfl).1, (h.2.2.1 rfl rfl).2.1⟩

/-! ## Claim about default protocol enablement -/

/-- The post-loop fixups either leave the request flags unchanged or enable
everything except Eaton serial. -/
theorem finishOpts_allow_cases {α : Type} (st : OptState α) :
    (finishOpts st).allow = st.allow
    ∨ (finishOpts st).allow
        = ⟨true, true, true, true, true, true, true, st.allow.eaton_serial⟩ := by
  simp only [finishOpts, flushPending]
  split <;> split <;>
    first
      | (right; rfl)
      | (left; rfl)
      | (split <;> first | (right; rfl) | (left; rfl))

theorem caseStart_allow {α : Type} (a : α) (st : OptState α) :
    (caseStart a st).allow = st.allow := by
  cases hs : st.start_ip <;> cases he : st.end_ip <;>
    simp [caseStart, flushPending, hs, he]

theorem caseEnd_allow {α : Type} (b : α) (st : OptState α) :
    (caseEnd b st).allow = st.allow := by
  cases hs : st.start_ip <;> cases he : st.end_ip <;>
    simp [caseEnd, flushPending, hs, he]

/-- Claim C10: with no scan type requested at all, the post-loop defaulting
enables every protocol except Eaton serial; the defaulting never touches the
Eaton serial flag, and among the option handlers only `-E` can turn it on. -/
theorem default_enables_all_but_serial :
    (∀ st : OptState Nat, st.allow = Allow.none →
        (finishOpts st).allow = ⟨true, true, true, true, true, true, true, false⟩)
    ∧ (∀ st : OptState Nat,
        (finishOpts st).allow.eaton_serial = st.allow.eaton_serial)
    ∧ (∀ (avail : Avail) (st st' : OptState Nat) (o : CliOpt Nat),
        procOpt avail st o = .ok st' →
        (st'.allow.eaton_serial = true ↔
          (st.allow.eaton_serial = true ∨ o = CliOpt.optE))) := by
  refine ⟨?_, ?_, ?_⟩
  · intro st h
    obtain ⟨al, aa, si, ei, rg, lv⟩ := st
    simp only [Allow.none] at h
    subst h
    cases si <;> cases ei <;> simp [finishOpts, flushPending]
  · intro st
    rcases finishOpts_allow_cases st with h | h <;> rw [h]
  · intro avail st st' o h
    cases o with
    | optStart a =>
        simp only [procOpt, Except.ok.injEq] at h
        subst h
        rw [caseStart_allow]
        simp
    | optEnd b =>
        simp only [procOpt, Except.ok.injEq] at h
        subst h
        rw [caseEnd_allow]
        simp
    | optU =>
        simp only [procOpt] at h
        split at h
        · simp only [Except.ok.injEq] at h
          subst h
          simp
        · exact Except.noConfusion h
    | optS =>
        simp only [procOpt] at h
        split at h
        · simp only [Except.ok.injEq] at h
          subst h
          simp
        · exact Except.noConfusion h
    | optM =>
        simp only [procOpt] at h
        split at h
        · simp only [Except.ok.injEq] at h
          subst h
          simp
        · exact Except.noConfusion h
    | optA =>
        simp only [procOpt] at h
        split at h
        · simp only [Except.ok.injEq] at h
          subst h
          simp
        · exact Except.noConfusion h
    | optI =>
        simp only [procOpt] at h
        split at h
        · simp only [Except.ok.injEq] at h
          subst h
          simp
        · exact Except.noConfusion h
    | optO =>
        simp only [procOpt, Except.ok.injEq] at h
        subst h
        simp
    | optN =>
        simp only [procOpt, Except.ok.injEq] at h
        subst h
        simp
    | optE =>
        simp only [procOpt, Except.ok.injEq] at h
        subst h
        simp
    | optC =>
        simp only [procOpt, Except.ok.injEq] at h
        subst h
        simp

/-- Witness for C10: the defaulting applied to the initial state. -/
theorem default_enables_all_but_serial_witness :
    (finishOpts (initState Nat)).allow
        = ⟨true, true, true, true, true, true, true, false⟩
    ∧ (finishOpts (initState Nat)).allow.eaton_serial = false := by
  have h := default_enables_all_but_serial
  exact ⟨h.1 (initState Nat) rfl, by rw [h.1 (initState Nat) rfl]⟩

/-! ## Claim about protocols whose capability was not compiled in -/

/-- Counterexample to C4 as stated: with SNMP support not compiled in, an
explicit `-S` request makes option processing jump to `display_help` and
return from `main` (modelled as `Except.error`), so the run does NOT continue
to scan the other requested protocols (here `-O`); it never reaches
dispatch. -/
theorem capability_exit_counterexample :
    processOpts availNoSnmp ([CliOpt.optS, CliOpt.optO] : List (CliOpt Nat))
      = .error () := rfl

/-- Claim C4 as amended: a protocol enabled while its capability is missing
is excluded from dispatch (its result slot stays empty) and the run continues
— all eight report slots are still produced in order; this is how protocols
reached through a complete scan, and `-O`/`-n` (whose capability is checked
only at dispatch), behave.  But an explicit `-U`/`-S`/`-M`/`-A`/`-I` flag for
a missing capability instead ends option processing with the usage text. -/
theorem capability_unavailable_amended {α δ : Type} (allow : Allow) (avail : Avail)
    (reg : Registry α) (lvl : Int) (pb : Probes (α × α) δ) :
    (avail.usb = false → (dispatchAll allow avail reg lvl pb).dev .usb = [])
    ∧ (avail.snmp = false → (dispatchAll allow avail reg lvl pb).dev .snmp = [])
    ∧ (avail.xml_http = false → (dispatchAll allow avail reg lvl pb).dev .xml = [])
    ∧ (avail.nut = false → (dispatchAll allow avail reg lvl pb).dev .nut = [])
    ∧ (avail.nut_simulation = false →
        (dispatchAll allow avail reg lvl pb).dev .nut_simulation = [])
    ∧ (avail.avahi = false → (dispatchAll allow avail reg lvl pb).dev .avahi = [])
    ∧ (avail.ipmi = false → (dispatchAll allow avail reg lvl pb).dev .ipmi = [])
    ∧ ((reportList (dispatchAll allow avail reg lvl pb).dev).map Prod.fst = reportOrder)
    ∧ (∀ st : OptState α, avail.snmp = false → procOpt avail st .optS = .error ())
    ∧ (∀ st : OptState α, avail.usb = false → procOpt avail st .optU = .error ())
    ∧ (∀ st : OptState α, avail.xml_http = false → procOpt avail st .optM = .error ())
    ∧ (∀ st : OptState α, avail.avahi = false → procOpt avail st .optA = .error ())
    ∧ (∀ st : OptState α, avail.ipmi = false → procOpt avail st .optI = .error ()) := by
  refine ⟨?_, ?_, ?_, ?_, ?_, ?_, ?_, rfl, ?_, ?_, ?_, ?_, ?_⟩
  · intro h; simp [dispatchAll, h]
  · intro h; simp [dispatchAll, h]
  · intro h; simp [dispatchAll, h]
  · intro h; simp [dispatchAll, h]
  · intro h; simp [dispatchAll, h]
  · intro h; simp [dispatchAll, h]
  · intro h; simp [dispatchAll, h]
  · intro st h; simp [procOpt, h]
  · intro st h; simp [procOpt, h]
  · intro st h; simp [procOpt, h]
  · intro st h; simp [procOpt, h]
  · intro st h; simp [procOpt, h]

/-- Witness for the amended C4: SNMP unavailable but requested via a complete
scan; the SNMP slot is empty, the other protocols still report. -/
theorem capability_unavailable_amended_witness :
    (dispatchAll ⟨true, true, true, true, true, true, true, false⟩ availNoSnmp
        (⟨[((1 : Nat), (2 : Nat))], 1⟩ : Registry Nat) 0
        ⟨fun _ => [0], fun _ => [1], fun _ => [2], fun _ => [3], [4], [5],
         fun _ => [6], [7]⟩).dev .snmp = []
    ∧ (reportList (dispatchAll ⟨true, true, true, true, true, true, true, false⟩
        availNoSnmp (⟨[((1 : Nat), (2 : Nat))], 1⟩ : Registry Nat) 0
        ⟨fun _ => [0], fun _ => [1], fun _ => [2], fun _ => [3], [4], [5],
         fun _ => [6], [7]⟩).dev).map Prod.fst = reportOrder
    ∧ procOpt availNoSnmp (initState Nat) .optS = .error () := by
  have h := capability_unavailable_amended
    (⟨true, true, true, true, true, true, true, false⟩ : Allow) availNoSnmp
    (⟨[((1 : Nat), (2 : Nat))], 1⟩ : Registry Nat) 0
    (⟨fun _ => [0], fun _ => [1], fun _ => [2], fun _ => [3], [4], [5],
      fun _ => [6], [7]⟩ : Probes (Nat × Nat) Nat)
  exact ⟨h.2.1 rfl, h.2.2.2.2.2.2.2.1,
    h.2.2.2.2.2.2.2.2.1 (initState Nat) rfl⟩

/-! ## Claim about the thread-ceiling option -/

/-- Counterexample to C5 as stated: (a) with a soft limit of 4 open files and
a requested ceiling of 5 (which exceeds limit minus reservation = 1), the
code sets `max_threads` to 4, not to the bound 1, because the guard
`max_threads > RESERVE_FD_COUNT + 1` skips the subtraction; (b) when
`getrlimit` failed (soft limit recorded as 0) and the request is exactly
`UINT_MAX`, the semaphore clamp does not fire, so the effective maximum is
`UINT_MAX`, exceeding the claimed bound `UINT_MAX - 1`. -/
theorem thread_ceiling_counterexample :
    apply_T 4 (some 5) 2048 = 4
    ∧ (4 : Nat) ≠ 4 - RESERVE_FD_COUNT
    ∧ sem_init_clamp (apply_T 0 (some ((2 : Int) ^ 32 - 1)) 2048) = UINT_MAX_32
    ∧ UINT_MAX_32 - 1 < UINT_MAX_32 := by
  refine ⟨?_, by decide, ?_, by decide⟩
  · simp [apply_T, RESERVE_FD_COUNT, SIZE_MAX_64]
  · norm_num [apply_T, sem_init_clamp, RESERVE_FD_COUNT, SIZE_MAX_64, UINT_MAX_32]
    decide

/-- Claim C5 as amended: an explicit `-T` value above (soft limit minus the
3-descriptor reservation) is reduced to soft limit minus 3 when the soft
limit is at least 5, but to the soft limit itself (4) when the soft limit is
exactly 4; a non-numeric, non-positive or not-below-`SIZE_MAX` value keeps
the prior default; the semaphore clamp caps values strictly above `UINT_MAX`
at `UINT_MAX - 1`, so the effective maximum never exceeds `UINT_MAX` (a value
equal to `UINT_MAX` passes through unreduced). -/
theorem thread_ceiling_amended (r mt : Nat) (val : Int) :
    ((0 < val ∧ val < (SIZE_MAX_64 : Int) ∧ 5 ≤ r ∧ r < SIZE_MAX_64
        ∧ r - RESERVE_FD_COUNT < val.toNat)
      → apply_T r (some val) mt = r - RESERVE_FD_COUNT)
    ∧ ((0 < val ∧ val < (SIZE_MAX_64 : Int) ∧ 1 < val.toNat)
      → apply_T 4 (some val) mt = 4)
    ∧ apply_T r none mt = mt
    ∧ ((val ≤ 0 ∨ (SIZE_MAX_64 : Int) ≤ val) → apply_T r (some val) mt = mt)
    ∧ sem_init_clamp mt ≤ UINT_MAX_32
    ∧ (UINT_MAX_32 < mt → sem_init_clamp mt = UINT_MAX_32 - 1) := by
  refine ⟨?_, ?_, rfl, ?_, ?_, ?_⟩
  · rintro ⟨h1, h2, h3, h4, h5⟩
    have hcond : 0 < r ∧ RESERVE_FD_COUNT < r ∧ r < SIZE_MAX_64
        ∧ r - RESERVE_FD_COUNT < val.toNat := by
      refine ⟨by omega, ?_, h4, h5⟩
      simp only [RESERVE_FD_COUNT]
      omega
    simp only [apply_T, if_pos (And.intro h1 h2), if_pos hcond]
    rw [if_pos]
    simp only [RESERVE_FD_COUNT]
    omega
  · rintro ⟨h1, h2, h3⟩
    have hcond : 0 < 4 ∧ RESERVE_FD_COUNT < 4 ∧ 4 < SIZE_MAX_64
        ∧ 4 - RESERVE_FD_COUNT < val.toNat := by
      refine ⟨by omega, by decide, by decide, ?_⟩
      simp only [RESERVE_FD_COUNT]
      omega
    simp only [apply_T, if_pos (And.intro h1 h2), if_pos hcond]
    rw [if_neg]
    simp only [RESERVE_FD_COUNT]
    omega
  · intro h
    have hneg : ¬(0 < val ∧ val < (SIZE_MAX_64 : Int)) := by
      rcases h with h | h
      · exact fun hc => absurd hc.1 (by omega)
      · exact fun hc => absurd hc.2 (by omega)
    simp only [apply_T, if_neg hneg]
  · unfold sem_init_clamp
    split
    · omega
    · rename_i hc
      rw [Decidable.not_and_iff_or_not] at hc
      rcases hc with hc | hc
      · exact absurd (by norm_num [SIZE_MAX_64, UINT_MAX_32]) hc
      · omega
  · intro h
    unfold sem_init_clamp
    rw [if_pos]
    exact ⟨by norm_num [SIZE_MAX_64, UINT_MAX_32], h⟩

/-- Witness for the amended C5 at concrete numbers: soft limit 9, request
100 gives 6; soft limit 4, request 5 gives 4; a non-numeric request keeps the
default; a request of 0 keeps the default; the clamp caps 2^33. -/
theorem thread_ceiling_amended_witness :
    apply_T 9 (some 100) 2048 = 6
    ∧ apply_T 4 (some 5) 2048 = 4
    ∧ apply_T 9 none 2048 = 2048
    ∧ apply_T 9 (some 0) 2048 = 2048
    ∧ sem_init_clamp (2 ^ 33) = UINT_MAX_32 - 1 := by
  refine ⟨?_, ?_, ?_, ?_, ?_⟩
  · have h := thread_ceiling_amended 9 2048 100
    have := h.1 ⟨by norm_num, by norm_num [SIZE_MAX_64], by norm_num,
      by norm_num [SIZE_MAX_64], by norm_num [RESERVE_FD_COUNT]⟩
    simpa [RESERVE_FD_COUNT] using this
  · exact (thread_ceiling_amended 9 2048 5).2.1
      ⟨by norm_num, by norm_num [SIZE_MAX_64], by norm_num⟩
  · exact (thread_ceiling_amended 9 2048 100).2.2.1
  · exact (thread_ceiling_amended 9 2048 0).2.2.2.1 (Or.inl (by norm_num))
  · exact (thread_ceiling_amended 9 (2 ^ 33) 100).2.2.2.2.2
      (by norm_num [UINT_MAX_32])

/-! ## Claim about the start/end accumulation state machine -/

theorem seFold_cons_start {α : Type} (a : α) (evs : List (SE α)) (st : OptState α) :
    seFold (SE.start a :: evs) st = seFold evs (caseStart a st) := rfl

theorem seFold_cons_stop {α : Type} (b : α) (evs : List (SE α)) (st : OptState α) :
    seFold (SE.stop b :: evs) st = seFold evs (caseEnd b st) := rfl

theorem caseStart_eq_none_none {α : Type} (a : α) (al : Allow) (aa : Bool)
    (rg : Registry α) (lv : Int) :
    caseStart a (⟨al, aa, none, none, rg, lv⟩ : OptState α)
      = ⟨al, aa, some a, none, rg, lv⟩ := rfl

theorem caseStart_eq_none_some {α : Type} (a e : α) (al : Allow) (aa : Bool)
    (rg : Registry α) (lv : Int) :
    caseStart a (⟨al, aa, none, some e, rg, lv⟩ : OptState α)
      = ⟨al, aa, none, none, ⟨rg.ranges ++ [(a, e)], rg.count + 1⟩, lv⟩ := rfl

theorem caseStart_eq_some_none {α : Type} (a s : α) (al : Allow) (aa : Bool)
    (rg : Registry α) (lv : Int) :
    caseStart a (⟨al, aa, some s, none, rg, lv⟩ : OptState α)
      = ⟨al, aa, some a, none, ⟨rg.ranges ++ [(s, s)], rg.count + 1⟩, lv⟩ := rfl

theorem caseStart_eq_some_some {α : Type} (a s e : α) (al : Allow) (aa : Bool)
    (rg : Registry α) (lv : Int) :
    caseStart a (⟨al, aa, some s, some e, rg, lv⟩ : OptState α)
      = ⟨al, aa, some a, none, ⟨rg.ranges ++ [(s, e)], rg.count + 1⟩, lv⟩ := rfl

theorem caseEnd_eq_none_none {α : Type} (b : α) (al : Allow) (aa : Bool)
    (rg : Registry α) (lv : Int) :
    caseEnd b (⟨al, aa, none, none, rg, lv⟩ : OptState α)
      = ⟨al, aa, none, some b, rg, lv⟩ := rfl

theorem caseEnd_eq_none_some {α : Type} (b e : α) (al : Allow) (aa : Bool)
    (rg : Registry α) (lv : Int) :
    caseEnd b (⟨al, aa, none, some e, rg, lv⟩ : OptState α)
      = ⟨al, aa, none, some b, ⟨rg.ranges ++ [(e, e)], rg.count + 1⟩, lv⟩ := rfl

theorem caseEnd_eq_some_none {α : Type} (b s : α) (al : Allow) (aa : Bool)
    (rg : Registry α) (lv : Int) :
    caseEnd b (⟨al, aa, some s, none, rg, lv⟩ : OptState α)
      = ⟨al, aa, none, none, ⟨rg.ranges ++ [(s, b)], rg.count + 1⟩, lv⟩ := rfl

theorem caseEnd_eq_some_some {α : Type} (b s e : α) (al : Allow) (aa : Bool)
    (rg : Registry α) (lv : Int) :
    caseEnd b (⟨al, aa, some s, some e, rg, lv⟩ : OptState α)
      = ⟨al, aa, none, some b, ⟨rg.ranges ++ [(s, e)], rg.count + 1⟩, lv⟩ := rfl

/-- The registry left by the post-loop fixups is exactly the one produced by
flushing the pending endpoints (a no-op when none are pending). -/
theorem finishOpts_reg {α : Type} (st : OptState α) :
    (finishOpts st).reg = (add_ip_range st.start_ip st.end_ip st.reg).1 := by
  obtain ⟨al, aa, si, ei, rg, lv⟩ := st
  rcases si with _ | s <;> rcases ei with _ | e <;>
    simp only [finishOpts, flushPending, add_ip_range, Option.isSome_none,
      Option.isSome_some, Bool.or_self, Bool.or_true, Bool.true_or,
      Bool.false_eq_true, if_false, if_true] <;>
    split <;> first | rfl | (split <;> rfl)

/-- The source-side start/end machine, followed by the final flush, produces
exactly the pairs the spec-side machine implies, for any starting state with
at most one pending endpoint. -/
theorem seFold_spec {α : Type} (evs : List (SE α)) :
    ∀ st : OptState α, st.start_ip = none ∨ st.end_ip = none →
    (add_ip_range (seFold evs st).start_ip (seFold evs st).end_ip
        (seFold evs st).reg).1.ranges
      = st.reg.ranges ++ specImpliedPairs evs (pend st) := by
  induction evs with
  | nil =>
      intro st h
      obtain ⟨al, aa, si, ei, rg, lv⟩ := st
      rcases si with _ | s <;> rcases ei with _ | e
      · simp [seFold, add_ip_range, pend, specImpliedPairs]
      · simp [seFold, add_ip_range, pend, specImpliedPairs]
      · simp [seFold, add_ip_range, pend, specImpliedPairs]
      · rcases h with h | h <;> simp at h
  | cons ev evs ih =>
      intro st h
      obtain ⟨al, aa, si, ei, rg, lv⟩ := st
      cases ev with
      | start a =>
          rcases si with _ | s <;> rcases ei with _ | e
          · rw [seFold_cons_start, caseStart_eq_none_none,
              ih ⟨al, aa, some a, none, rg, lv⟩ (Or.inr rfl)]
            simp [pend, specImpliedPairs]
          · rw [seFold_cons_start, caseStart_eq_none_some,
              ih ⟨al, aa, none, none, ⟨rg.ranges ++ [(a, e)], rg.count + 1⟩, lv⟩
                (Or.inl rfl)]
            simp [pend, specImpliedPairs]
          · rw [seFold_cons_start, caseStart_eq_some_none,
              ih ⟨al, aa, some a, none, ⟨rg.ranges ++ [(s, s)], rg.count + 1⟩, lv⟩
                (Or.inr rfl)]
            simp [pend, specImpliedPairs]
          · rcases h with h | h <;> simp at h
      | stop b =>
          rcases si with _ | s <;> rcases ei with _ | e
          · rw [seFold_cons_stop, caseEnd_eq_none_none,
              ih ⟨al, aa, none, some b, rg, lv⟩ (Or.inl rfl)]
            simp [pend, specImpliedPairs]
          · rw [seFold_cons_stop, caseEnd_eq_none_some,
              ih ⟨al, aa, none, some b, ⟨rg.ranges ++ [(e, e)], rg.count + 1⟩, lv⟩
                (Or.inl rfl)]
            simp [pend, specImpliedPairs]
          · rw [seFold_cons_stop, caseEnd_eq_some_none,
              ih ⟨al, aa, none, none, ⟨rg.ranges ++ [(s, b)], rg.count + 1⟩, lv⟩
                (Or.inl rfl)]
            simp [pend, specImpliedPairs]
          · rcases h with h | h <;> simp at h

/-- `add_ip_range` preserves the count-equals-length invariant. -/
theorem add_ip_range_wf {α : Type} (s e : Option α) (reg : Registry α)
    (h : reg.count = reg.ranges.length) :
    (add_ip_range s e reg).1.count = (add_ip_range s e reg).1.ranges.length := by
  cases s <;> cases e <;> simp [add_ip_range] <;> omega

theorem caseStart_wf {α : Type} (a : α) (st : OptState α)
    (h : st.reg.count = st.reg.ranges.length) :
    (caseStart a st).reg.count = (caseStart a st).reg.ranges.length := by
  obtain ⟨al, aa, si, ei, rg, lv⟩ := st
  rcases si with _ | s <;> rcases ei with _ | e
  · rw [caseStart_eq_none_none]; exact h
  · rw [caseStart_eq_none_some]; simp at h ⊢; omega
  · rw [caseStart_eq_some_none]; simp at h ⊢; omega
  · rw [caseStart_eq_some_some]; simp at h ⊢; omega

theorem caseEnd_wf {α : Type} (b : α) (st : OptState α)
    (h : st.reg.count = st.reg.ranges.length) :
    (caseEnd b st).reg.count = (caseEnd b st).reg.ranges.length := by
  obtain ⟨al, aa, si, ei, rg, lv⟩ := st
  rcases si with _ | s <;> rcases ei with _ | e
  · rw [caseEnd_eq_none_none]; exact h
  · rw [caseEnd_eq_none_some]; simp at h ⊢; omega
  · rw [caseEnd_eq_some_none]; simp at h ⊢; omega
  · rw [caseEnd_eq_some_some]; simp at h ⊢; omega

theorem seFold_wf {α : Type} (evs : List (SE α)) :
    ∀ st : OptState α, st.reg.count = st.reg.ranges.length →
    (seFold evs st).reg.count = (seFold evs st).reg.ranges.length := by
  induction evs with
  | nil => intro st h; exact h
  | cons ev evs ih =>
      intro st h
      cases ev with
      | start a => rw [seFold_cons_start]; exact ih _ (caseStart_wf a st h)
      | stop b => rw [seFold_cons_stop]; exact ih _ (caseEnd_wf b st h)

/-- The registry after a start/end-only option pass holds exactly the
spec-implied pairs. -/
theorem seRun_ranges {α : Type} (evs : List (SE α)) :
    (seRun evs).reg.ranges = specImpliedPairs evs none := by
  unfold seRun
  rw [finishOpts_reg]
  have h := seFold_spec evs (initState α) (Or.inl rfl)
  simpa [initState, Registry.empty, pend] using h

/-- The registry count stays in sync with the number of stored ranges. -/
theorem seRun_count {α : Type} (evs : List (SE α)) :
    (seRun evs).reg.count = (seRun evs).reg.ranges.length := by
  unfold seRun
  rw [finishOpts_reg]
  exact add_ip_range_wf _ _ _ (seFold_wf evs (initState α) rfl)

/-- A start/end-only option list runs through the full option loop without
error and lands in exactly the state of the start/end machine. -/
theorem processOpts_seOpt {α : Type} (avail : Avail) (evs : List (SE α)) :
    processOpts avail (evs.map seOpt) = .ok (seRun evs) := by
  have key : ∀ st : OptState α,
      (evs.map seOpt).foldlM (procOpt avail) st = .ok (seFold evs st) := by
    induction evs with
    | nil => intro st; rfl
    | cons ev evs ih =>
        intro st
        cases ev with
        | start a =>
            rw [List.map_cons, List.foldlM_cons, seFold_cons_start]
            exact ih (caseStart a st)
        | stop b =>
            rw [List.map_cons, List.foldlM_cons, seFold_cons_stop]
            exact ih (caseEnd b st)
  unfold processOpts seRun
  rw [key (initState α)]
  rfl

/-- Claim C2: for every sequence of `-s`/`-e` occurrences, in any order and
any number of repeats, the registry receives exactly the (start, end) pairs
the sequence implies — none lost or duplicated — with the count matching; the
option loop never fails on such a sequence; and in particular start(A),
start(B), end(C) yields exactly the ranges (A, A) then (B, C). -/
theorem start_end_flush_exactness {α : Type} (evs : List (SE α)) (a b c : α) :
    (seRun evs).reg.ranges = specImpliedPairs evs none
    ∧ (seRun evs).reg.count = (specImpliedPairs evs none).length
    ∧ (∀ avail : Avail, processOpts avail (evs.map seOpt) = .ok (seRun evs))
    ∧ (seRun [SE.start a, SE.start b, SE.stop c]).reg.ranges = [(a, a), (b, c)] := by
  refine ⟨seRun_ranges evs, ?_, fun avail => processOpts_seOpt avail evs, ?_⟩
  · rw [seRun_count, seRun_ranges]
  · rw [seRun_ranges]
    simp [specImpliedPairs]

end NutScanner
